import Mathlib

/-!
Shallow embedding of the active-record attribute and persistence engine in
`src/eloquent/orm/model.py` (class `Model`), together with proofs about it.

Modelling conventions:
* Python dynamically-typed attribute values become the inductive type `Value`
  (integers, strings, booleans, null, temporal values, lists and string-keyed
  mappings).  Floating-point values are out of scope.
* Python `dict`s become insertion-ordered association lists
  (`List (String × Value)`); `alSet` mirrors `d[k] = v` (update in place,
  append when absent), `alGet` mirrors `d.get(k)`.
* Class-level declared metadata (`__primary_key__`, `__fillable__`, ...)
  becomes the structure `ModelClass`; per-instance state (`__exists`,
  `__attributes`, `__original`) becomes the structure `ModelData`.
* Code that raises becomes `Except`/`Option`; queries issued to the external
  query-builder collaborator are collected in a `List Query` trace.
* The external serialization collaborator (`simplejson.dumps` / `loads`) and
  the external temporal library (`arrow`) are modelled by a canonical
  injective text encoding with a matching parser; their exact wire syntax is
  out of scope, only the serialize/parse round trip is relied upon.
-/

/-- A dynamically-typed Python attribute value: `None`, `bool`, `int`, `str`,
a temporal value (an `arrow`/`datetime` object, represented by an integer
timestamp), a list, or a string-keyed mapping. -/
inductive Value where
  | null
  | bool (b : Bool)
  | int (n : Int)
  | str (s : String)
  | time (t : Int)
  | list (xs : List Value)
  | obj (fields : List (String × Value))
deriving Repr

mutual

/-- Structural (Python `==`) equality test on values. -/
def beqVal : Value → Value → Bool
  | .null, .null => true
  | .bool a, .bool b => a == b
  | .int a, .int b => a == b
  | .str a, .str b => a == b
  | .time a, .time b => a == b
  | .list xs, .list ys => beqValList xs ys
  | .obj fs, .obj gs => beqValFields fs gs
  | _, _ => false

/-- Equality test on lists of values. -/
def beqValList : List Value → List Value → Bool
  | [], [] => true
  | x :: xs, y :: ys => beqVal x y && beqValList xs ys
  | _, _ => false

/-- Equality test on string-keyed field lists. -/
def beqValFields : List (String × Value) → List (String × Value) → Bool
  | [], [] => true
  | (k, v) :: fs, (l, w) :: gs => k == l && beqVal v w && beqValFields fs gs
  | _, _ => false

end

/-- Lookup in an insertion-ordered association list: Python `d.get(k)`. -/
def alGet : List (String × Value) → String → Option Value
  | [], _ => none
  | (k, v) :: t, key => if k = key then some v else alGet t key

/-- Update in an insertion-ordered association list: Python `d[k] = v`
(replaces the existing binding in place, appends otherwise). -/
def alSet : List (String × Value) → String → Value → List (String × Value)
  | [], key, value => [(key, value)]
  | (k, v) :: t, key, value =>
      if k = key then (key, value) :: t else (k, v) :: alSet t key value

/-- Key-membership in an association list: Python `k in d`. -/
def alHas (l : List (String × Value)) (key : String) : Bool :=
  (alGet l key).isSome

/-- Decimal digit character for a digit value below ten. -/
def digitChar : Nat → Char
  | 0 => '0' | 1 => '1' | 2 => '2' | 3 => '3' | 4 => '4'
  | 5 => '5' | 6 => '6' | 7 => '7' | 8 => '8' | _ => '9'

/-- Numeric value of a decimal digit character. -/
def digitVal : Char → Nat
  | '0' => 0 | '1' => 1 | '2' => 2 | '3' => 3 | '4' => 4
  | '5' => 5 | '6' => 6 | '7' => 7 | '8' => 8 | _ => 9

/-- Whether a character is a decimal digit. -/
def isDigitCh (c : Char) : Bool :=
  c = '0' || c = '1' || c = '2' || c = '3' || c = '4' ||
  c = '5' || c = '6' || c = '7' || c = '8' || c = '9'

/-- Least-significant-first decimal digits of a natural number (empty for 0),
with explicit fuel (structurally recursive; `fuel ≥ n` always suffices). -/
def natDigitsAux : Nat → Nat → List Char
  | _, 0 => []
  | 0, _ + 1 => []
  | fuel + 1, n + 1 => digitChar ((n + 1) % 10) :: natDigitsAux fuel ((n + 1) / 10)

/-- Least-significant-first decimal digits of a natural number (empty for 0). -/
def natDigits (n : Nat) : List Char :=
  natDigitsAux n n

/-- Read a run of decimal digits (least-significant first), returning the
value and the unread remainder. -/
def parseDigits : List Char → Nat × List Char
  | [] => (0, [])
  | c :: cs =>
      if isDigitCh c then
        let p := parseDigits cs
        (digitVal c + 10 * p.1, p.2)
      else (0, c :: cs)

/-- Encode a natural number: its digits followed by a terminator. -/
def encNat (n : Nat) : List Char :=
  natDigits n ++ [';']

/-- Decode a natural number encoded by `encNat`. -/
def decNat (cs : List Char) : Option (Nat × List Char) :=
  let p := parseDigits cs
  match p.2 with
  | ';' :: r => some (p.1, r)
  | _ => none

/-- Encode an integer: optional sign, then the magnitude. -/
def encInt (n : Int) : List Char :=
  if n < 0 then '-' :: encNat n.natAbs else encNat n.natAbs

/-- Decode an integer encoded by `encInt`. -/
def decInt : List Char → Option (Int × List Char)
  | '-' :: r => (decNat r).map fun p => (-(p.1 : Int), p.2)
  | cs => (decNat cs).map fun p => ((p.1 : Int), p.2)

/-- Encode a string: its length, then its raw characters. -/
def encStr (s : String) : List Char :=
  encNat s.length ++ s.data

/-- Decode a string encoded by `encStr`. -/
def decStr (cs : List Char) : Option (String × List Char) :=
  match decNat cs with
  | some (n, rest) =>
      if n ≤ rest.length then some (⟨rest.take n⟩, rest.drop n) else none
  | none => none

mutual

/-- Canonical text encoding of a value.  Models the serialization performed
by the external `simplejson.dumps` collaborator; per the specification the
exact wire syntax is out of scope, only injectivity and the matching parser
matter.  Each constructor starts with a distinct tag character. -/
def encodeVal : Value → List Char
  | .null => ['N']
  | .bool true => ['T']
  | .bool false => ['F']
  | .int n => 'I' :: encInt n
  | .time t => 'D' :: encInt t
  | .str s => 'S' :: encStr s
  | .list xs => 'L' :: encodeItems xs
  | .obj fs => 'O' :: encodeFields fs

/-- Encoding of the elements of a list value, closed by a terminator. -/
def encodeItems : List Value → List Char
  | [] => [']']
  | v :: vs => encodeVal v ++ encodeItems vs

/-- Encoding of the fields of a mapping value, closed by a terminator. -/
def encodeFields : List (String × Value) → List Char
  | [] => [']']
  | (k, v) :: fs => 'K' :: (encStr k ++ (encodeVal v ++ encodeFields fs))

end

mutual

/-- Fuel-indexed decoder inverting `encodeVal`. -/
def decodeVal : Nat → List Char → Option (Value × List Char)
  | 0, _ => none
  | _ + 1, 'N' :: r => some (.null, r)
  | _ + 1, 'T' :: r => some (.bool true, r)
  | _ + 1, 'F' :: r => some (.bool false, r)
  | _ + 1, 'I' :: r => (decInt r).map fun p => (.int p.1, p.2)
  | _ + 1, 'D' :: r => (decInt r).map fun p => (.time p.1, p.2)
  | _ + 1, 'S' :: r => (decStr r).map fun p => (.str p.1, p.2)
  | f + 1, 'L' :: r => (decodeItems f r).map fun p => (.list p.1, p.2)
  | f + 1, 'O' :: r => (decodeFields f r).map fun p => (.obj p.1, p.2)
  | _ + 1, _ => none

/-- Fuel-indexed decoder inverting `encodeItems`. -/
def decodeItems : Nat → List Char → Option (List Value × List Char)
  | 0, _ => none
  | _ + 1, ']' :: r => some ([], r)
  | f + 1, cs => do
      let (v, r) ← decodeVal f cs
      let (vs, r2) ← decodeItems f r
      some (v :: vs, r2)

/-- Fuel-indexed decoder inverting `encodeFields`. -/
def decodeFields : Nat → List Char → Option (List (String × Value) × List Char)
  | 0, _ => none
  | _ + 1, ']' :: r => some ([], r)
  | f + 1, 'K' :: cs => do
      let (k, r) ← decStr cs
      let (v, r2) ← decodeVal f r
      let (fs, r3) ← decodeFields f r2
      some ((k, v) :: fs, r3)
  | _ + 1, _ => none

end

/-- Serialize a value to its canonical transport string (the model of the
external `simplejson.dumps` collaborator used by `Model.set_attribute`). -/
def json_dumps (v : Value) : String :=
  ⟨encodeVal v⟩

/-- Parse a canonical transport string back to a value (the model of the
external `simplejson.loads` collaborator used by `Model._cast_attribute`);
`none` models a raised parse error. -/
def json_loads (s : String) : Option Value :=
  match decodeVal (s.data.length + 1) s.data with
  | some (v, []) => some v
  | _ => none

mutual

/-- Whether a value is JSON-representable: built only from null, booleans,
integers, strings, lists and mappings (no temporal objects). -/
def jsonRepresentable : Value → Bool
  | .null => true
  | .bool _ => true
  | .int _ => true
  | .str _ => true
  | .time _ => false
  | .list xs => jsonItemsRepresentable xs
  | .obj fs => jsonFieldsRepresentable fs

/-- `jsonRepresentable` on the elements of a list. -/
def jsonItemsRepresentable : List Value → Bool
  | [] => true
  | v :: vs => jsonRepresentable v && jsonItemsRepresentable vs

/-- `jsonRepresentable` on the fields of a mapping. -/
def jsonFieldsRepresentable : List (String × Value) → Bool
  | [] => true
  | (_, v) :: fs => jsonRepresentable v && jsonFieldsRepresentable fs

end

/-- A write query handed to the external query-builder collaborator
(`Builder` / `QueryBuilder` in the source), recorded as a trace event. -/
inductive Query where
  | update (key_name : String) (key_value : Value)
      (values : List (String × Value))
  | insert (attributes : List (String × Value))
  | insert_get_id (attributes : List (String × Value)) (key_name : String)
  | delete (key_name : String) (key_value : Value)
deriving Repr

/-- Class-level declared metadata of a record type (the double-underscore
class attributes of `Model`).  `primary_key` is `none` when
`__primary_key__` is `None`. -/
structure ModelClass where
  primary_key : Option String := some "id"
  incrementing : Bool := true
  fillable : List String := []
  guarded : List String := ["*"]
  unguarded : Bool := false
  hidden : List String := []
  visible : List String := []
  timestamps : Bool := true
  casts : List (String × String) := []
  dates : List String := []
deriving Repr

/-- Per-instance state of a record: the `exists` flag, the current attribute
map and the `original` snapshot (`self.__exists`, `self.__attributes`,
`self.__original`). -/
structure ModelData where
  exists_ : Bool := false
  attributes : List (String × Value) := []
  original : List (String × Value) := []
deriving Repr

/-- The fixed created-at column name (`Model.CREATED_AT`). -/
def CREATED_AT : String := "created_at"

/-- The fixed updated-at column name (`Model.UPDATED_AT`). -/
def UPDATED_AT : String := "updated_at"

/-- Python truthiness of a value (`bool(value)`). -/
def truthy : Value → Bool
  | .null => false
  | .bool b => b
  | .int n => n != 0
  | .str s => !s.data.isEmpty
  | .time _ => true
  | .list xs => !xs.isEmpty
  | .obj fs => !fs.isEmpty

/-- `Model.get_dates`: per-type extra date columns followed by the two fixed
timestamp columns. -/
def get_dates (c : ModelClass) : List String :=
  c.dates ++ [CREATED_AT, UPDATED_AT]

/-- `Model.from_datetime`: the external `arrow` conversion applied on write
to date columns.  Temporal values and numeric timestamps normalize to a
temporal value; a string holding a canonical temporal rendering parses back.
(Strings the external parser would reject raise in the source; no claim
exercises that path, the value passes through here.) -/
def from_datetime : Value → Value
  | .time t => .time t
  | .int n => .time n
  | .str s =>
      match decInt s.data with
      | some (t, []) => .time t
      | _ => .str s
  | v => v

/-- `Model.as_datetime`: the external `arrow.get` parse applied on read to
date columns; `none` models a raised parse error. -/
def as_datetime : Value → Option Int
  | .time t => some t
  | .int n => some n
  | .str s =>
      match decInt s.data with
      | some (t, []) => some t
      | _ => none
  | _ => none

/-- `Model._format_date` for the default `iso` format: the canonical text
rendering of a temporal value (the exact ISO-8601 text of the external
library is out of scope; an injective rendering stands in for it). -/
def _format_date (t : Int) : String :=
  ⟨encInt t⟩

/-- `Model._has_cast`. -/
def _has_cast (c : ModelClass) (key : String) : Bool :=
  (c.casts.lookup key).isSome

/-- ASCII lowercasing of one character (Python `str.lower` as applied to
declared cast kinds). -/
def lower_char (c : Char) : Char :=
  if 'A' ≤ c ∧ c ≤ 'Z' then Char.ofNat (c.toNat + 32) else c

/-- Python `s.lower().strip()` as the source applies it to a declared cast
kind. -/
def lower_strip (s : String) : String :=
  ⟨(((s.data.map lower_char).dropWhile Char.isWhitespace).reverse.dropWhile
      Char.isWhitespace).reverse⟩

/-- `Model._get_cast_type`: the declared cast kind, lowercased and
stripped.  (The source indexes `__casts__[key]` directly; callers only use
it for declared keys, absent keys default to the empty string here.) -/
def _get_cast_type (c : ModelClass) (key : String) : String :=
  lower_strip ((c.casts.lookup key).getD "")

/-- `Model._is_json_castable`. -/
def _is_json_castable (c : ModelClass) (key : String) : Bool :=
  if _has_cast c key then
    let type := _get_cast_type c key
    type = "list" || type = "dict" || type = "json" || type = "object"
  else false

/-- Python `int(value)` coercion; `none` models a raised error. -/
def pyInt : Value → Option Int
  | .int n => some n
  | .bool b => some (if b then 1 else 0)
  | .str s => s.toInt?
  | _ => none

/-- Python `str(value)` coercion. -/
def pyStr : Value → String
  | .str s => s
  | .int n => toString n
  | .bool b => if b then "True" else "False"
  | .null => "None"
  | v => ⟨encodeVal v⟩

/-- `Model._cast_attribute`: cast an attribute to a native type on read.
`none` models a raised coercion/parse error.  The float kinds coerce through
the external float type, out of scope here (no claim exercises them); an
unrecognized kind is a passthrough. -/
def _cast_attribute (c : ModelClass) (key : String) (value : Value) :
    Option Value :=
  match value with
  | .null => some .null
  | value =>
    let type := _get_cast_type c key
    if type = "int" || type = "integer" then (pyInt value).map .int
    else if type = "real" || type = "float" || type = "double" then none
    else if type = "string" || type = "str" then some (.str (pyStr value))
    else if type = "bool" || type = "boolean" then some (.bool (truthy value))
    else if type = "dict" || type = "list" || type = "json" then
      match value with
      | .str s => json_loads s
      | _ => none
    else some value

/-- `Model.set_attribute`: date values are normalized before storage, values
for structured-cast keys are serialized to their transport string, then the
attribute map is written. -/
def set_attribute (c : ModelClass) (m : ModelData) (key : String)
    (value : Value) : ModelData :=
  let value := if key ∈ get_dates c && truthy value
               then from_datetime value else value
  let value := if _is_json_castable c key
               then Value.str (json_dumps value) else value
  { m with attributes := alSet m.attributes key value }

/-- `Model.sync_original`: copy the current attributes into the snapshot. -/
def sync_original (m : ModelData) : ModelData :=
  { m with original := m.attributes }

/-- `Model.get_dirty`: every attribute whose key is absent from the
snapshot, or present with a different value; in attribute order. -/
def get_dirty (m : ModelData) : List (String × Value) :=
  m.attributes.filter fun kv =>
    match alGet m.original kv.1 with
    | none => true
    | some ov => !beqVal kv.2 ov

/-- `Model.is_dirty` (varargs modelled as a list): with no arguments, true
iff anything is dirty; otherwise true iff some given key is dirty. -/
def is_dirty (m : ModelData) (attributes : List String) : Bool :=
  let dirty := get_dirty m
  match attributes with
  | [] => !dirty.isEmpty
  | _ => attributes.any fun a => alHas dirty a

/-- Python `key.startswith('_')`: the internal-attribute marker test. -/
def starts_with_underscore (s : String) : Bool :=
  match s.data with
  | '_' :: _ => true
  | _ => false

/-- `Model.is_guarded`. -/
def is_guarded (c : ModelClass) (key : String) : Bool :=
  key ∈ c.guarded || c.guarded = ["*"]

/-- `Model.is_fillable`. -/
def is_fillable (c : ModelClass) (key : String) : Bool :=
  if c.unguarded then true
  else if key ∈ c.fillable then true
  else if is_guarded c key then false
  else c.fillable.isEmpty && !starts_with_underscore key

/-- `Model.totally_guarded`. -/
def totally_guarded (c : ModelClass) : Bool :=
  c.fillable.length = 0 && c.guarded = ["*"]

/-- `Model._fillable_from_dict`. -/
def _fillable_from_dict (c : ModelClass)
    (attributes : List (String × Value)) : List (String × Value) :=
  if !c.fillable.isEmpty && !c.unguarded then
    attributes.filter fun kv => kv.1 ∈ c.fillable
  else attributes

/-- The last dot-separated segment of a key: Python `key.split('.')[-1]`,
accumulating the current segment in reverse. -/
def last_dot_segment : List Char → List Char → List Char
  | acc, [] => acc.reverse
  | acc, c :: cs =>
      if c = '.' then last_dot_segment [] cs
      else last_dot_segment (c :: acc) cs

/-- `Model._remove_table_from_key`. -/
def _remove_table_from_key (key : String) : String :=
  if !key.data.any (fun c => c = '.') then key
  else ⟨last_dot_segment [] key.data⟩

/-- The iteration of `Model.fill` over the pre-filtered input.  A raised
`MassAssignmentError` becomes an error value carrying the offending key and
the instance state at the moment the exception propagates. -/
def fill_loop (c : ModelClass) (tg : Bool) :
    ModelData → List (String × Value) →
    Except (String × ModelData) ModelData
  | m, [] => .ok m
  | m, (key, value) :: rest =>
      let key := _remove_table_from_key key
      if is_fillable c key then fill_loop c tg (set_attribute c m key value) rest
      else if tg then .error (key, m)
      else fill_loop c tg m rest

/-- `Model.fill`: protected mass assignment. -/
def fill (c : ModelClass) (m : ModelData)
    (attributes : List (String × Value)) :
    Except (String × ModelData) ModelData :=
  fill_loop c (totally_guarded c) m (_fillable_from_dict c attributes)

/-- `Model.force_fill`: `unguard`, fill, `reguard`.  The flag is class
state, so the resulting class (with `unguarded` reset to false) is returned
alongside the fill result. -/
def force_fill (c : ModelClass) (m : ModelData)
    (attributes : List (String × Value)) :
    Except (String × ModelData) ModelData × ModelClass :=
  (fill { c with unguarded := true } m attributes,
   { c with unguarded := false })

/-- `Model._get_dictable_items`: hidden/visible filtering.  A non-empty
visible list is an allow-list; otherwise hidden keys and
underscore-prefixed keys are excluded. -/
def _get_dictable_items (c : ModelClass)
    (values : List (String × Value)) : List (String × Value) :=
  if c.visible.length > 0 then
    values.filter fun kv => kv.1 ∈ c.visible
  else
    values.filter fun kv => kv.1 ∉ c.hidden && !starts_with_underscore kv.1

/-- The date-formatting pass of `Model.attributes_to_dict`: each date-set
key present is parsed and re-rendered; a parse failure propagates. -/
def apply_dates : List String → List (String × Value) →
    Option (List (String × Value))
  | [], attributes => some attributes
  | key :: rest, attributes =>
      match alGet attributes key with
      | none => apply_dates rest attributes
      | some v =>
          match as_datetime v with
          | none => none
          | some t => apply_dates rest (alSet attributes key (.str (_format_date t)))

/-- The cast-formatting pass of `Model.attributes_to_dict`: each declared
cast key present is cast to its native form; a coercion failure
propagates. -/
def apply_casts (c : ModelClass) : List (String × String) →
    List (String × Value) → Option (List (String × Value))
  | [], attributes => some attributes
  | (key, _) :: rest, attributes =>
      match alGet attributes key with
      | none => apply_casts c rest attributes
      | some v =>
          match _cast_attribute c key v with
          | none => none
          | some v2 => apply_casts c rest (alSet attributes key v2)

/-- `Model.attributes_to_dict`: hidden/visible filtering, then date
formatting, then cast-aware formatting. -/
def attributes_to_dict (c : ModelClass) (m : ModelData) :
    Option (List (String × Value)) :=
  (apply_dates (get_dates c) (_get_dictable_items c m.attributes)).bind
    (apply_casts c c.casts)

/-- `Model.relations_to_dict`: relations are unimplemented in the source
and contribute nothing. -/
def relations_to_dict : List (String × Value) := []

/-- `Model.to_dict` (the spec's `to_map`): the serialized attribute map,
updated with the (empty) relations map. -/
def to_dict (c : ModelClass) (m : ModelData) :
    Option (List (String × Value)) :=
  (attributes_to_dict c m).map fun attributes =>
    relations_to_dict.foldl (fun acc kv => alSet acc kv.1 kv.2) attributes

/-- `Model._get_attribute_value`: raw read, then cast or date decoding. -/
def _get_attribute_value (c : ModelClass) (m : ModelData) (key : String) :
    Except String Value :=
  let value := (alGet m.attributes key).getD .null
  if _has_cast c key then
    match _cast_attribute c key value with
    | some v => .ok v
    | none => .error "cast error"
  else if key ∈ get_dates c then
    match value with
    | .null => .ok .null
    | value =>
        match as_datetime value with
        | some t => .ok (.time t)
        | none => .error "date parse error"
  else .ok value

/-- `Model.get_attribute`: raises `AttributeError` for a key absent from
the attribute map (relations are unimplemented). -/
def get_attribute (c : ModelClass) (m : ModelData) (key : String) :
    Except String Value :=
  if alHas m.attributes key then _get_attribute_value c m key
  else .error key

/-- `Model.delete`.  The error value carries the queries issued before the
exception (always none: the missing-key check precedes everything, and the
key read for the delete predicate precedes the delete query). -/
def delete (c : ModelClass) (m : ModelData) :
    Except (String × List Query) (Option Bool × ModelData × List Query) :=
  match c.primary_key with
  | none => .error ("No primary key defined on the model.", [])
  | some key_name =>
      if m.exists_ then
        match get_attribute c m key_name with
        | .error e => .error (e, [])
        | .ok key_value =>
            .ok (some true, { m with exists_ := false },
                 [Query.delete key_name key_value])
      else .ok (none, m, [])

/-- `Model._update_timestamps`: one fresh timestamp (`now`, the value of
`fresh_timestamp()`); the updated-at column is set when not already dirty;
the created-at column is set when the record is new and the column is not
already dirty.  `set_updated_at`/`set_created_at` write through
`set_attribute`. -/
def _update_timestamps (c : ModelClass) (m : ModelData) (now : Int) :
    ModelData :=
  let time := Value.time now
  let m1 := if !is_dirty m [UPDATED_AT]
            then set_attribute c m UPDATED_AT time else m
  if !m1.exists_ && !is_dirty m1 [CREATED_AT]
  then set_attribute c m1 CREATED_AT time else m1

/-- The timestamp-stamping step guarded by
`if self.__timestamps__ and options.get('timestamps', True)`, as it appears
at the top of both `Model._perform_update` and `Model._perform_insert`. -/
def update_timestamps_if_enabled (c : ModelClass) (m : ModelData)
    (opt_timestamps : Bool) (now : Int) : ModelData :=
  if c.timestamps && opt_timestamps then _update_timestamps c m now else m

/-- `Model._get_key_for_save_query`: the snapshot value of the primary key
when present, the current value otherwise; `none` models the `KeyError`
when neither map has the key (also when no key name is configured, since a
`None` name is never a key of the attribute maps). -/
def _get_key_for_save_query (c : ModelClass) (m : ModelData) :
    Option Value :=
  match c.primary_key with
  | none => none
  | some key_name =>
      match alGet m.original key_name with
      | some v => some v
      | none => alGet m.attributes key_name

/-- `Model._finish_save`: resync the snapshot on a successful save
(`_touch_owners` is unimplemented in the source). -/
def _finish_save (m : ModelData) : ModelData :=
  sync_original m

/-- `Model._perform_update`: skip when nothing is dirty; otherwise stamp
timestamps (when enabled by the type and the options), recompute the dirty
set, and issue one update keyed by `_get_key_for_save_query` when it is
still non-empty.  Returns `True` in the source; an unresolvable key raises
`KeyError`. -/
def _perform_update (c : ModelClass) (m : ModelData)
    (opt_timestamps : Bool) (now : Int) :
    Except String (ModelData × List Query) :=
  let dirty := get_dirty m
  if !dirty.isEmpty then
    let m := update_timestamps_if_enabled c m opt_timestamps now
    let dirty := get_dirty m
    if !dirty.isEmpty then
      match c.primary_key, _get_key_for_save_query c m with
      | some key_name, some key_value =>
          .ok (m, [Query.update key_name key_value dirty])
      | _, _ => .error "KeyError"
    else .ok (m, [])
  else .ok (m, [])

/-- `Model._insert_and_set_id`: issue `insert_get_id` and write the
generated id (`gen_id`, the collaborator's return value) back into the
attribute map.  (With `__primary_key__ = None` the source would proceed
with a `None` dict key, which string-keyed maps cannot represent; that
configuration is treated as a failure here and no claim exercises it.) -/
def _insert_and_set_id (c : ModelClass) (m : ModelData) (gen_id : Value) :
    Option (ModelData × Query) :=
  match c.primary_key with
  | none => none
  | some key_name =>
      some (set_attribute c m key_name gen_id,
            Query.insert_get_id m.attributes key_name)

/-- `Model._perform_insert`: stamp timestamps (when enabled), then either
`insert_get_id` (auto-incrementing) or a plain insert, then set the
`exists` flag.  Returns `True` in the source. -/
def _perform_insert (c : ModelClass) (m : ModelData)
    (opt_timestamps : Bool) (now : Int) (gen_id : Value) :
    Except String (ModelData × List Query) :=
  let m := update_timestamps_if_enabled c m opt_timestamps now
  if c.incrementing then
    match _insert_and_set_id c m gen_id with
    | none => .error "KeyError"
    | some (m, q) => .ok ({ m with exists_ := true }, [q])
  else
    .ok ({ m with exists_ := true }, [Query.insert m.attributes])

/-- `Model.save`: update when persisted, insert otherwise; on success
(`saved` is always `True` when no exception propagates) finish with a
snapshot resync.  `now` is the fresh timestamp and `gen_id` the generated
id the external collaborators would supply. -/
def save (c : ModelClass) (m : ModelData) (opt_timestamps : Bool)
    (now : Int) (gen_id : Value) :
    Except String (Bool × ModelData × List Query) :=
  if m.exists_ then
    match _perform_update c m opt_timestamps now with
    | .error e => .error e
    | .ok (m, queries) => .ok (true, _finish_save m, queries)
  else
    match _perform_insert c m opt_timestamps now gen_id with
    | .error e => .error e
    | .ok (m, queries) => .ok (true, _finish_save m, queries)

/-- A record type with all class-level defaults (totally guarded, primary
key `id`, auto-incrementing, timestamps on, no casts): concrete test
fixture. -/
def defaultClass : ModelClass := {}

/-- A record type declaring an `object` cast on the `data` column: concrete
test fixture. -/
def objectCastClass : ModelClass := { casts := [("data", "object")] }

/-- A freshly constructed, empty, non-persisted record: concrete test
fixture. -/
def emptyModel : ModelData := {}

/-- A persisted, fully synced record with no pending changes: concrete test
fixture. -/
def cleanModel : ModelData :=
  { exists_ := true,
    attributes := [("id", .int 1), ("updated_at", .time 5)],
    original := [("id", .int 1), ("updated_at", .time 5)] }

/-- A persisted record with one modified attribute (`name`): concrete test
fixture. -/
def dirtyModel : ModelData :=
  { exists_ := true,
    attributes := [("id", .int 1), ("name", .str "x")],
    original := [("id", .int 1), ("name", .str "y")] }

/-- A record type declaring a `json` cast on the `data` column: concrete
test fixture. -/
def jsonCastClass : ModelClass := { casts := [("data", "json")] }

/-- A persisted record whose updated-at column already carries a
caller-supplied, dirty value: concrete test fixture. -/
def dirtyUpdatedAtModel : ModelData :=
  { exists_ := true,
    attributes := [("updated_at", Value.time 99)],
    original := [] }

theorem isDigitCh_digitChar (d : Nat) (hd : d < 10) :
    isDigitCh (digitChar d) = true := by
  interval_cases d <;> decide

theorem digitVal_digitChar (d : Nat) (hd : d < 10) :
    digitVal (digitChar d) = d := by
  interval_cases d <;> decide

theorem parseDigits_natDigitsAux (f : Nat) : ∀ n r, n ≤ f →
    parseDigits (natDigitsAux f n ++ (';' :: r)) = (n, ';' :: r) := by
  induction f with
  | zero =>
    intro n r hn
    have h0 : n = 0 := by omega
    subst h0
    simp [natDigitsAux, parseDigits, isDigitCh]
  | succ f ih =>
    intro n r hn
    match n with
    | 0 => simp [natDigitsAux, parseDigits, isDigitCh]
    | Nat.succ k =>
      have h10 : (k + 1) % 10 < 10 := Nat.mod_lt _ (by omega)
      have hdiv : (k + 1) / 10 ≤ f := by
        have := Nat.div_lt_self (Nat.succ_pos k) (show 1 < 10 by omega)
        omega
      have ihq := ih ((k + 1) / 10) r hdiv
      rw [natDigitsAux]
      simp only [List.cons_append, List.append_eq, parseDigits,
        isDigitCh_digitChar _ h10, if_true, ihq, digitVal_digitChar _ h10]
      rw [Prod.mk.injEq]
      exact ⟨by omega, rfl⟩

theorem parseDigits_natDigits (n : Nat) (r : List Char) :
    parseDigits (natDigits n ++ (';' :: r)) = (n, ';' :: r) :=
  parseDigits_natDigitsAux n n r (le_refl n)

theorem decNat_encNat (n : Nat) (r : List Char) :
    decNat (encNat n ++ r) = some (n, r) := by
  have h : encNat n ++ r = natDigits n ++ (';' :: r) := by simp [encNat]
  simp [decNat, h, parseDigits_natDigits]

theorem encNat_head_ne_dash (m : Nat) (r : List Char) :
    ∃ c t, encNat m ++ r = c :: t ∧ c ≠ '-' := by
  match m with
  | 0 => exact ⟨';', r, by simp [encNat, natDigits, natDigitsAux], by decide⟩
  | Nat.succ k =>
    refine ⟨digitChar ((k + 1) % 10),
      natDigitsAux k ((k + 1) / 10) ++ [';'] ++ r, ?_, ?_⟩
    · simp [encNat, natDigits, natDigitsAux]
    · have h10 : (k + 1) % 10 < 10 := Nat.mod_lt _ (by omega)
      interval_cases h : (k + 1) % 10 <;> decide

theorem decInt_encInt (n : Int) (r : List Char) :
    decInt (encInt n ++ r) = some (n, r) := by
  by_cases hn : n < 0
  · have h : encInt n ++ r = '-' :: (encNat n.natAbs ++ r) := by
      simp [encInt, hn]
    rw [h, decInt, decNat_encNat]
    simp only [Option.map_some', Option.some.injEq, Prod.mk.injEq]
    exact ⟨by omega, trivial⟩
  · have henc : encInt n ++ r = encNat n.natAbs ++ r := by simp [encInt, hn]
    obtain ⟨c, t, hct, hc⟩ := encNat_head_ne_dash n.natAbs r
    rw [henc, hct, decInt]
    · rw [← hct, decNat_encNat]
      simp only [Option.map_some', Option.some.injEq, Prod.mk.injEq]
      exact ⟨by omega, trivial⟩
    · intro r2 hr2
      injection hr2 with h1 h2
      exact absurd h1 hc

theorem decStr_encStr (s : String) (r : List Char) :
    decStr (encStr s ++ r) = some (s, r) := by
  have h : encStr s ++ r = encNat s.length ++ (s.data ++ r) := by
    simp [encStr]
  have hlen : s.length = s.data.length := rfl
  have hle : s.length ≤ (s.data ++ r).length := by
    rw [hlen, List.length_append]; omega
  have htake : (s.data ++ r).take s.length = s.data := by
    rw [hlen]; exact List.take_left s.data r
  have hdrop : (s.data ++ r).drop s.length = r := by
    rw [hlen]; exact List.drop_left s.data r
  rw [h]
  simp only [decStr, decNat_encNat, hle, if_true, htake, hdrop]

theorem encodeVal_length_pos (v : Value) : 1 ≤ (encodeVal v).length := by
  cases v with
  | bool b => cases b <;> simp [encodeVal]
  | _ => simp [encodeVal]

theorem encodeItems_length_pos (xs : List Value) :
    1 ≤ (encodeItems xs).length := by
  cases xs with
  | nil => simp [encodeItems]
  | cons v vs =>
    have := encodeVal_length_pos v
    simp [encodeItems]
    omega

theorem encodeFields_length_pos (fs : List (String × Value)) :
    1 ≤ (encodeFields fs).length := by
  cases fs with
  | nil => simp [encodeFields]
  | cons kv fs => simp [encodeFields]

theorem decode_encode (f : Nat) :
    (∀ v rest, (encodeVal v).length < f →
        decodeVal f (encodeVal v ++ rest) = some (v, rest)) ∧
    (∀ xs rest, (encodeItems xs).length < f →
        decodeItems f (encodeItems xs ++ rest) = some (xs, rest)) ∧
    (∀ fs rest, (encodeFields fs).length < f →
        decodeFields f (encodeFields fs ++ rest) = some (fs, rest)) := by
  induction f with
  | zero => exact ⟨fun v rest h => absurd h (by omega),
      fun xs rest h => absurd h (by omega),
      fun fs rest h => absurd h (by omega)⟩
  | succ f ih =>
    obtain ⟨ihv, ihl, ihf⟩ := ih
    refine ⟨?_, ?_, ?_⟩
    · intro v rest hlen
      cases v with
      | null => simp [encodeVal, decodeVal]
      | bool b => cases b <;> simp [encodeVal, decodeVal]
      | int n => simp [encodeVal, decodeVal, decInt_encInt]
      | time t => simp [encodeVal, decodeVal, decInt_encInt]
      | str s => simp [encodeVal, decodeVal, decStr_encStr]
      | list xs =>
        have hl : (encodeItems xs).length < f := by
          simp [encodeVal] at hlen; omega
        simp [encodeVal, decodeVal, ihl xs rest hl]
      | obj fs =>
        have hl : (encodeFields fs).length < f := by
          simp [encodeVal] at hlen; omega
        simp [encodeVal, decodeVal, ihf fs rest hl]
    · intro xs rest hlen
      cases xs with
      | nil => simp [encodeItems, decodeItems]
      | cons v vs =>
        have h1 := encodeVal_length_pos v
        have h2 := encodeItems_length_pos vs
        have hlen2 : (encodeVal v).length + (encodeItems vs).length < f + 1 := by
          simp [encodeItems] at hlen; omega
        have hv : (encodeVal v).length < f := by omega
        have hvs : (encodeItems vs).length < f := by omega
        obtain ⟨c, t, hct, hc1, hc2⟩ :
            ∃ c t, encodeVal v = c :: t ∧ c ≠ ']' ∧ c ≠ 'K' := by
          cases v with
          | bool b => cases b <;> exact ⟨_, _, rfl, by decide, by decide⟩
          | _ => exact ⟨_, _, rfl, by decide, by decide⟩
        have hsplit : encodeItems (v :: vs) ++ rest
            = c :: (t ++ (encodeItems vs ++ rest)) := by
          simp [encodeItems, hct]
        rw [hsplit]
        rw [decodeItems]
        · have hback : c :: (t ++ (encodeItems vs ++ rest))
              = encodeVal v ++ (encodeItems vs ++ rest) := by
            simp [hct]
          rw [hback, ihv v _ hv]
          simp only [Option.bind_eq_bind, Option.some_bind]
          rw [ihl vs rest hvs]
          rfl
        · intro r hr
          injection hr with hr1 hr2
          exact absurd hr1 hc1
    · intro fs rest hlen
      cases fs with
      | nil => simp [encodeFields, decodeFields]
      | cons kv gs =>
        obtain ⟨k, v⟩ := kv
        have h1 := encodeVal_length_pos v
        have h2 := encodeFields_length_pos gs
        have hlen2 : (encStr k).length + (encodeVal v).length
            + (encodeFields gs).length < f := by
          simp [encodeFields] at hlen; omega
        have hv : (encodeVal v).length < f := by omega
        have hgs : (encodeFields gs).length < f := by omega
        have hsplit : encodeFields ((k, v) :: gs) ++ rest
            = 'K' :: (encStr k ++ (encodeVal v ++ (encodeFields gs ++ rest))) := by
          simp [encodeFields]
        rw [hsplit, decodeFields, decStr_encStr]
        simp only [Option.bind_eq_bind, Option.some_bind]
        rw [ihv v _ hv]
        simp only [Option.some_bind]
        rw [ihf gs rest hgs]
        rfl

theorem json_round_trip (v : Value) : json_loads (json_dumps v) = some v := by
  have h := (decode_encode ((encodeVal v).length + 1)).1 v [] (by omega)
  rw [List.append_nil] at h
  simp [json_loads, json_dumps, h]

mutual

theorem beqVal_refl : ∀ v, beqVal v v = true
  | .null => rfl
  | .bool b => by simp [beqVal]
  | .int n => by simp [beqVal]
  | .str s => by simp [beqVal]
  | .time t => by simp [beqVal]
  | .list xs => by simp [beqVal, beqValList_refl xs]
  | .obj fs => by simp [beqVal, beqValFields_refl fs]

theorem beqValList_refl : ∀ xs, beqValList xs xs = true
  | [] => rfl
  | x :: xs => by simp [beqValList, beqVal_refl x, beqValList_refl xs]

theorem beqValFields_refl : ∀ fs, beqValFields fs fs = true
  | [] => rfl
  | (k, v) :: fs => by
      simp [beqValFields, beqVal_refl v, beqValFields_refl fs]

end

theorem alGet_alSet_self (l : List (String × Value)) (k : String) (v : Value) :
    alGet (alSet l k v) k = some v := by
  induction l with
  | nil => simp [alSet, alGet]
  | cons hd t ih =>
    obtain ⟨k2, v2⟩ := hd
    by_cases h : k2 = k
    · simp [alSet, h, alGet]
    · simp [alSet, h, alGet, ih]

theorem alGet_alSet_ne (l : List (String × Value)) (k : String) (v : Value)
    (a : String) (h : a ≠ k) : alGet (alSet l k v) a = alGet l a := by
  have hka : ¬k = a := fun e => h e.symm
  induction l with
  | nil => simp [alSet, alGet, hka]
  | cons hd t ih =>
    obtain ⟨k2, v2⟩ := hd
    by_cases h2 : k2 = k
    · subst h2
      simp [alSet, alGet, hka]
    · simp only [alSet, if_neg h2, alGet]
      by_cases h3 : k2 = a <;> simp [h3, ih]

theorem mem_keys_alSet (l : List (String × Value)) (k a : String) (v : Value) :
    a ∈ (alSet l k v).map Prod.fst ↔ a ∈ l.map Prod.fst ∨ a = k := by
  induction l with
  | nil => simp [alSet]
  | cons hd t ih =>
    obtain ⟨k2, v2⟩ := hd
    by_cases h : k2 = k
    · subst h
      simp [alSet, List.mem_cons]
      tauto
    · simp only [alSet, if_neg h, List.map_cons, List.mem_cons, ih]
      tauto

theorem alSet_keys_nodup (l : List (String × Value)) (k : String) (v : Value)
    (h : (l.map Prod.fst).Nodup) : ((alSet l k v).map Prod.fst).Nodup := by
  induction l with
  | nil => simp [alSet]
  | cons hd t ih =>
    obtain ⟨k2, v2⟩ := hd
    simp only [List.map_cons, List.nodup_cons] at h
    by_cases h2 : k2 = k
    · subst h2
      simp only [alSet, if_pos, List.map_cons, List.nodup_cons]
      exact h
    · simp only [alSet, if_neg h2, List.map_cons, List.nodup_cons]
      refine ⟨?_, ih h.2⟩
      rw [mem_keys_alSet]
      rintro (hh | hh)
      · exact h.1 hh
      · exact h2 hh

theorem alGet_none_of_not_mem_keys (l : List (String × Value)) (a : String)
    (h : a ∉ l.map Prod.fst) : alGet l a = none := by
  induction l with
  | nil => rfl
  | cons hd t ih =>
    obtain ⟨k2, v2⟩ := hd
    simp only [List.map_cons, List.mem_cons] at h
    push_neg at h
    have hk : ¬k2 = a := fun e => h.1 e.symm
    simp [alGet, hk, ih h.2]

theorem alGet_eq_some_of_nodup (l : List (String × Value)) (k : String)
    (v : Value) (hnd : (l.map Prod.fst).Nodup) (hm : (k, v) ∈ l) :
    alGet l k = some v := by
  induction l with
  | nil => cases hm
  | cons hd t ih =>
    obtain ⟨k2, v2⟩ := hd
    simp only [List.map_cons, List.nodup_cons] at hnd
    rcases List.mem_cons.mp hm with h | h
    · rw [Prod.mk.injEq] at h
      obtain ⟨h1, h2⟩ := h
      simp [alGet, h1, h2]
    · have hk : ¬k2 = k := by
        intro e
        subst e
        exact hnd.1 (List.mem_map.mpr ⟨(k2, v), h, rfl⟩)
      simp [alGet, hk, ih hnd.2 h]

theorem alGet_filter_keyprop (p : String → Bool) (l : List (String × Value))
    (a : String) (ha : p a = true) :
    alGet (l.filter fun kv => p kv.1) a = alGet l a := by
  induction l with
  | nil => rfl
  | cons hd t ih =>
    obtain ⟨k2, v2⟩ := hd
    by_cases hk : k2 = a
    · subst hk
      simp [List.filter_cons, ha, alGet, ih]
    · by_cases hp : p k2 <;> simp [List.filter_cons, hp, alGet, hk, ih]

theorem alGet_filter_of_nodup (p : String × Value → Bool)
    (l : List (String × Value)) (a : String)
    (hnd : (l.map Prod.fst).Nodup) :
    alGet (l.filter p) a
      = (alGet l a).bind fun v => if p (a, v) then some v else none := by
  induction l with
  | nil => rfl
  | cons hd t ih =>
    obtain ⟨k2, v2⟩ := hd
    simp only [List.map_cons, List.nodup_cons] at hnd
    by_cases hk : k2 = a
    · subst hk
      by_cases hp : p (k2, v2)
      · simp [List.filter_cons, hp, alGet]
      · have hnone : alGet (t.filter p) k2 = none := by
          apply alGet_none_of_not_mem_keys
          intro hmem
          apply hnd.1
          have hsub : t.filter p ⊆ t := List.filter_subset' t
          exact List.map_subset _ hsub hmem
        simp [List.filter_cons, hp, alGet, hnone]
    · by_cases hp : p (k2, v2) <;>
        simp [List.filter_cons, hp, alGet, hk, ih hnd.2]

theorem get_dirty_sync (m : ModelData)
    (hnd : (m.attributes.map Prod.fst).Nodup) :
    get_dirty (sync_original m) = [] := by
  rw [get_dirty, List.filter_eq_nil_iff]
  intro kv hkv
  have hget : alGet (sync_original m).original kv.1 = some kv.2 := by
    show alGet m.attributes kv.1 = some kv.2
    exact alGet_eq_some_of_nodup _ _ _ hnd hkv
  simp only [sync_original] at hget ⊢
  rw [hget]
  simp [beqVal_refl]

theorem set_attribute_exists (c : ModelClass) (m : ModelData) (k : String)
    (v : Value) : (set_attribute c m k v).exists_ = m.exists_ := rfl

theorem set_attribute_original (c : ModelClass) (m : ModelData) (k : String)
    (v : Value) : (set_attribute c m k v).original = m.original := rfl

theorem set_attribute_attributes (c : ModelClass) (m : ModelData) (k : String)
    (v : Value) : ∃ w, (set_attribute c m k v).attributes = alSet m.attributes k w
      ∧ ∀ m2 : ModelData, (set_attribute c m2 k v).attributes = alSet m2.attributes k w := by
  refine ⟨_, rfl, fun m2 => rfl⟩

theorem _update_timestamps_exists (c : ModelClass) (m : ModelData) (now : Int) :
    (_update_timestamps c m now).exists_ = m.exists_ := by
  rw [_update_timestamps]
  split <;> split <;> rfl

theorem _update_timestamps_original (c : ModelClass) (m : ModelData) (now : Int) :
    (_update_timestamps c m now).original = m.original := by
  rw [_update_timestamps]
  split <;> split <;> rfl

theorem _update_timestamps_nodup (c : ModelClass) (m : ModelData) (now : Int)
    (hnd : (m.attributes.map Prod.fst).Nodup) :
    (((_update_timestamps c m now).attributes).map Prod.fst).Nodup := by
  rw [_update_timestamps]
  split <;> split <;>
    simp [set_attribute, alSet_keys_nodup, hnd]

theorem stamp_if_enabled_exists (c : ModelClass) (m : ModelData) (b : Bool)
    (now : Int) :
    (update_timestamps_if_enabled c m b now).exists_ = m.exists_ := by
  rw [update_timestamps_if_enabled]
  split
  · exact _update_timestamps_exists c m now
  · rfl

theorem stamp_if_enabled_original (c : ModelClass) (m : ModelData) (b : Bool)
    (now : Int) :
    (update_timestamps_if_enabled c m b now).original = m.original := by
  rw [update_timestamps_if_enabled]
  split
  · exact _update_timestamps_original c m now
  · rfl

theorem stamp_if_enabled_nodup (c : ModelClass) (m : ModelData) (b : Bool)
    (now : Int) (hnd : (m.attributes.map Prod.fst).Nodup) :
    (((update_timestamps_if_enabled c m b now).attributes).map Prod.fst).Nodup := by
  rw [update_timestamps_if_enabled]
  split
  · exact _update_timestamps_nodup c m now hnd
  · exact hnd

theorem is_dirty_single (m : ModelData) (a : String)
    (hnd : (m.attributes.map Prod.fst).Nodup) :
    is_dirty m [a]
      = match alGet m.attributes a, alGet m.original a with
        | some v, some ov => !beqVal v ov
        | some _, none => true
        | none, _ => false := by
  have hchar : alGet (get_dirty m) a
      = (alGet m.attributes a).bind fun v =>
          if (match alGet m.original a with
              | none => true
              | some ov => !beqVal v ov) = true then some v else none := by
    rw [get_dirty, alGet_filter_of_nodup _ _ _ hnd]
  have h1 : is_dirty m [a] = alHas (get_dirty m) a := by
    simp [is_dirty]
  rw [h1]
  simp only [alHas, hchar]
  cases hv : alGet m.attributes a with
  | none => rfl
  | some v =>
    cases ho : alGet m.original a with
    | none => rfl
    | some ov =>
      simp only [Option.some_bind]
      by_cases hb : beqVal v ov <;> simp [hb]

theorem is_dirty_set_attribute_other (c : ModelClass) (m : ModelData)
    (k : String) (v : Value) (a : String) (hne : a ≠ k)
    (hnd : (m.attributes.map Prod.fst).Nodup) :
    is_dirty (set_attribute c m k v) [a] = is_dirty m [a] := by
  have hnd2 : (((set_attribute c m k v).attributes).map Prod.fst).Nodup := by
    simp [set_attribute, alSet_keys_nodup, hnd]
  rw [is_dirty_single _ _ hnd2, is_dirty_single _ _ hnd]
  have hattr : alGet (set_attribute c m k v).attributes a
      = alGet m.attributes a := by
    simp only [set_attribute]
    exact alGet_alSet_ne _ _ _ _ hne
  rw [hattr, set_attribute_original]

theorem fill_loop_error_iff (c : ModelClass) (tg : Bool)
    (l : List (String × Value)) : ∀ m : ModelData,
    (∃ k m2, fill_loop c tg m l = .error (k, m2))
      ↔ (tg = true ∧ ∃ kv ∈ l,
            is_fillable c (_remove_table_from_key kv.1) = false) := by
  induction l with
  | nil =>
    intro m
    simp [fill_loop]
  | cons hd rest ih =>
    intro m
    obtain ⟨key, value⟩ := hd
    by_cases hf : is_fillable c (_remove_table_from_key key) = true
    · rw [show fill_loop c tg m ((key, value) :: rest)
          = fill_loop c tg (set_attribute c m (_remove_table_from_key key) value) rest from by
        rw [fill_loop]
        simp [hf]]
      rw [ih]
      simp only [List.mem_cons]
      constructor
      · rintro ⟨htg, kv, hm, hkv⟩
        exact ⟨htg, kv, Or.inr hm, hkv⟩
      · rintro ⟨htg, kv, hm | hm, hkv⟩
        · rw [hm] at hkv
          simp only at hkv
          rw [hf] at hkv
          cases hkv
        · exact ⟨htg, kv, hm, hkv⟩
    · rw [Bool.not_eq_true] at hf
      cases tg with
      | true =>
        constructor
        · intro _
          exact ⟨rfl, (key, value), List.mem_cons_self _ _, hf⟩
        · intro _
          have herr : fill_loop c true m ((key, value) :: rest)
              = .error (_remove_table_from_key key, m) := by
            rw [fill_loop]
            simp [hf]
          exact ⟨_, _, herr⟩
      | false =>
        have hstep : fill_loop c false m ((key, value) :: rest)
            = fill_loop c false m rest := by
          rw [fill_loop]
          simp [hf]
        rw [hstep, ih]
        simp

theorem is_fillable_of_totally_guarded (c : ModelClass) (key : String)
    (htg : totally_guarded c = true) : is_fillable c key = c.unguarded := by
  rw [totally_guarded, Bool.and_eq_true, decide_eq_true_eq,
    List.length_eq_zero] at htg
  obtain ⟨hfill, hguard⟩ := htg
  cases hu : c.unguarded with
  | true => simp [is_fillable, hu]
  | false =>
    simp [is_fillable, hu, hfill, is_guarded, hguard]

/-- **C2.**  Protected `fill` raises `MassAssignmentError` exactly when the
record is totally guarded and some processed key is rejected by the guard
policy (which accounts for the unguarded flag and fillable membership); the
same input under `force_fill` never raises `MassAssignmentError`. -/
theorem fill_error_iff_totally_guarded (c : ModelClass) (m : ModelData)
    (attributes : List (String × Value)) :
    ((∃ k m2, fill c m attributes = .error (k, m2)) ↔
      (totally_guarded c = true ∧
        ∃ kv ∈ _fillable_from_dict c attributes,
          is_fillable c (_remove_table_from_key kv.1) = false)) ∧
    (∀ k m2, (force_fill c m attributes).1 ≠ .error (k, m2)) := by
  constructor
  · rw [fill]
    exact fill_loop_error_iff c (totally_guarded c) _ m
  · intro k m2 hcontra
    have hex : ∃ k m2,
        fill { c with unguarded := true } m attributes = .error (k, m2) :=
      ⟨k, m2, hcontra⟩
    rw [fill] at hex
    obtain ⟨_, kv, _, hkv⟩ :=
      (fill_loop_error_iff _ _ _ m).mp hex
    simp [is_fillable] at hkv

/-- Witness for C2 at a concrete instance: a totally guarded record rejects
a plain key under protected fill. -/
theorem fill_error_iff_totally_guarded_witness :
    ∃ k m2, fill defaultClass emptyModel [("name", Value.str "a")]
      = .error (k, m2) :=
  (fill_error_iff_totally_guarded defaultClass emptyModel
      [("name", Value.str "a")]).1.mpr
    ⟨rfl, ("name", Value.str "a"), by constructor, by decide⟩

/-- **C9.**  When protected `fill` raises `MassAssignmentError`, the
instance state carried out by the exception equals the state before the
call (attributes and snapshot untouched), and the offending key is the
first processed key of the pre-filtered input. -/
theorem fill_error_atomicity (c : ModelClass) (m : ModelData)
    (attributes : List (String × Value)) (k : String) (m2 : ModelData)
    (herr : fill c m attributes = .error (k, m2)) :
    m2 = m ∧ ∃ k0 v rest,
      _fillable_from_dict c attributes = (k0, v) :: rest ∧
      _remove_table_from_key k0 = k := by
  have hexistsErr : ∃ k m2, fill c m attributes = .error (k, m2) :=
    ⟨k, m2, herr⟩
  rw [fill] at hexistsErr
  obtain ⟨htg, kv, hmem, hkv⟩ :=
    (fill_loop_error_iff c (totally_guarded c) _ m).mp hexistsErr
  have hu : c.unguarded = false := by
    cases hu : c.unguarded
    · rfl
    · rw [is_fillable_of_totally_guarded c _ htg, hu] at hkv
      cases hkv
  rw [fill] at herr
  cases hl : _fillable_from_dict c attributes with
  | nil =>
    rw [hl, fill_loop] at herr
    cases herr
  | cons hd rest =>
    obtain ⟨k0, v0⟩ := hd
    have hfk0 : is_fillable c (_remove_table_from_key k0) = false := by
      rw [is_fillable_of_totally_guarded c _ htg, hu]
    rw [hl, fill_loop] at herr
    rw [if_neg (by rw [hfk0]; exact Bool.false_ne_true), if_pos htg] at herr
    have hpair : (_remove_table_from_key k0, m) = (k, m2) :=
      Except.error.inj herr
    rw [Prod.mk.injEq] at hpair
    exact ⟨hpair.2.symm, k0, v0, rest, rfl, hpair.1⟩

/-- Witness for C9 at a concrete instance. -/
theorem fill_error_atomicity_witness :
    emptyModel = emptyModel ∧ ∃ k0 v rest,
      _fillable_from_dict defaultClass [("x", Value.int 1)]
        = (k0, v) :: rest ∧
      _remove_table_from_key k0 = "x" :=
  fill_error_atomicity defaultClass emptyModel [("x", Value.int 1)]
    "x" emptyModel rfl

/-- **C6.**  `is_fillable` holds exactly for: unguarded flag set; or key in
the fillable list; or (not guarded, fillable empty, and no underscore
marker prefix) — and `is_guarded` holds exactly for keys in the guarded
list or under the `guarded == ['*']` wildcard. -/
theorem is_fillable_decision_order (c : ModelClass) (key : String) :
    (is_fillable c key = true ↔
      (c.unguarded = true ∨ key ∈ c.fillable ∨
        (is_guarded c key = false ∧ c.fillable = [] ∧
          starts_with_underscore key = false))) ∧
    (is_guarded c key = true ↔ (key ∈ c.guarded ∨ c.guarded = ["*"])) := by
  constructor
  · rw [is_fillable]
    by_cases hu : c.unguarded <;> by_cases hf : key ∈ c.fillable <;>
      by_cases hg : is_guarded c key <;>
        simp [hu, hf, hg, List.isEmpty_iff]
  · rw [is_guarded]
    simp

/-- Witness for C6 at a concrete instance: under the default class the
wildcard guard makes a plain key guarded and hence not fillable. -/
theorem is_fillable_decision_order_witness :
    is_guarded defaultClass "name" = true ∧
    is_fillable defaultClass "name" = false :=
  ⟨(is_fillable_decision_order defaultClass "name").2.mpr
      (Or.inr rfl),
   by
    have h := (is_fillable_decision_order defaultClass "name").1
    rw [show defaultClass.unguarded = false from rfl] at h
    cases hfb : is_fillable defaultClass "name"
    · rfl
    · obtain hcase := h.mp hfb
      simp [defaultClass, is_guarded] at hcase⟩

/-- **C5.**  `delete` raises the missing-key error (and issues nothing)
when no primary key is declared, regardless of the exists flag; is a no-op
returning the absent result on a non-persisted instance; and on a
persisted instance issues one delete keyed by the current key value and
clears the exists flag. -/
theorem delete_behavior (c : ModelClass) (m : ModelData) :
    (c.primary_key = none →
      delete c m = .error ("No primary key defined on the model.", [])) ∧
    (∀ kn, c.primary_key = some kn → m.exists_ = false →
      delete c m = .ok (none, m, [])) ∧
    (∀ kn kv, c.primary_key = some kn → m.exists_ = true →
      get_attribute c m kn = .ok kv →
      delete c m = .ok (some true, { m with exists_ := false },
        [Query.delete kn kv])) := by
  refine ⟨?_, ?_, ?_⟩
  · intro h
    rw [delete, h]
  · intro kn h hex
    rw [delete, h]
    simp [hex]
  · intro kn kv h hex hget
    rw [delete, h]
    simp [hex, hget]

/-- Witness for C5 at a concrete instance (persisted delete). -/
theorem delete_behavior_witness :
    delete defaultClass cleanModel
      = .ok (some true, { cleanModel with exists_ := false },
          [Query.delete "id" (Value.int 1)]) :=
  (delete_behavior defaultClass cleanModel).2.2 "id" (Value.int 1)
    rfl rfl rfl

/-- **C10.**  Whenever `save` returns normally, the boolean it returns is
`True`, on both the update and the insert path. -/
theorem save_returns_true (c : ModelClass) (m : ModelData)
    (opt_timestamps : Bool) (now : Int) (gen_id : Value) (b : Bool)
    (m2 : ModelData) (qs : List Query)
    (h : save c m opt_timestamps now gen_id = .ok (b, m2, qs)) :
    b = true := by
  rw [save] at h
  split at h
  · cases hup : _perform_update c m opt_timestamps now with
    | error e =>
      rw [hup] at h
      cases h
    | ok p =>
      obtain ⟨mp, qp⟩ := p
      rw [hup] at h
      have hinj := Except.ok.inj h
      rw [Prod.mk.injEq] at hinj
      exact hinj.1.symm
  · cases hin : _perform_insert c m opt_timestamps now gen_id with
    | error e =>
      rw [hin] at h
      cases h
    | ok p =>
      obtain ⟨mp, qp⟩ := p
      rw [hin] at h
      have hinj := Except.ok.inj h
      rw [Prod.mk.injEq] at hinj
      exact hinj.1.symm

/-- Witness for C10 at a concrete instance. -/
theorem save_returns_true_witness :
    save defaultClass cleanModel true 9 Value.null
      = .ok (true, cleanModel, []) ∧ (true : Bool) = true :=
  ⟨rfl, save_returns_true defaultClass cleanModel true 9 Value.null
      true cleanModel [] rfl⟩

theorem perform_update_spec (c : ModelClass) (m : ModelData)
    (opt_timestamps : Bool) (now : Int) (mp : ModelData) (qs : List Query)
    (h : _perform_update c m opt_timestamps now = .ok (mp, qs)) :
    (get_dirty m = [] ∧ mp = m ∧ qs = []) ∨
    (get_dirty m ≠ [] ∧
      mp = update_timestamps_if_enabled c m opt_timestamps now ∧
      ((get_dirty mp = [] ∧ qs = []) ∨
       (get_dirty mp ≠ [] ∧ ∃ kn kv, c.primary_key = some kn ∧
         _get_key_for_save_query c mp = some kv ∧
         qs = [Query.update kn kv (get_dirty mp)]))) := by
  rw [_perform_update] at h
  cases hd1 : (get_dirty m).isEmpty with
  | true =>
    left
    rw [hd1] at h
    simp only [Bool.not_true, if_neg (by decide : ¬false = true)] at h
    have hinj := Except.ok.inj h
    rw [Prod.mk.injEq] at hinj
    exact ⟨List.isEmpty_iff.mp hd1, hinj.1.symm, hinj.2.symm⟩
  | false =>
    right
    rw [hd1] at h
    simp only [Bool.not_false, if_pos rfl] at h
    have hne : get_dirty m ≠ [] := by
      intro hnil
      rw [hnil] at hd1
      cases hd1
    refine ⟨hne, ?_⟩
    cases hd2 : (get_dirty (update_timestamps_if_enabled c m opt_timestamps now)).isEmpty with
    | true =>
      rw [hd2] at h
      simp only [Bool.not_true, if_neg (by decide : ¬false = true)] at h
      have hinj := Except.ok.inj h
      rw [Prod.mk.injEq] at hinj
      refine ⟨hinj.1.symm, Or.inl ⟨?_, hinj.2.symm⟩⟩
      rw [← hinj.1]
      exact List.isEmpty_iff.mp hd2
    | false =>
      rw [hd2] at h
      simp only [Bool.not_false, if_pos rfl] at h
      cases hpk : c.primary_key with
      | none =>
        rw [hpk] at h
        cases h
      | some kn =>
        rw [hpk] at h
        cases hkey : _get_key_for_save_query c
            (update_timestamps_if_enabled c m opt_timestamps now) with
        | none =>
          rw [hkey] at h
          cases h
        | some kv =>
          rw [hkey] at h
          have hinj := Except.ok.inj h
          rw [Prod.mk.injEq] at hinj
          refine ⟨hinj.1.symm, Or.inr ⟨?_, kn, kv, rfl, ?_, ?_⟩⟩
          · rw [← hinj.1]
            intro hnil
            rw [hnil] at hd2
            cases hd2
          · rw [← hinj.1]
            exact hkey
          · rw [← hinj.1, ← hinj.2]

theorem save_update_decomp (c : ModelClass) (m : ModelData)
    (opt_timestamps : Bool) (now : Int) (gen_id : Value) (b : Bool)
    (m2 : ModelData) (qs : List Query)
    (hex : m.exists_ = true)
    (h : save c m opt_timestamps now gen_id = .ok (b, m2, qs)) :
    ∃ mp, _perform_update c m opt_timestamps now = .ok (mp, qs) ∧
      m2 = _finish_save mp ∧ b = true := by
  rw [save, if_pos hex] at h
  cases hup : _perform_update c m opt_timestamps now with
  | error e =>
    rw [hup] at h
    cases h
  | ok p =>
    obtain ⟨mp, qp⟩ := p
    rw [hup] at h
    have hinj := Except.ok.inj h
    rw [Prod.mk.injEq] at hinj
    obtain ⟨hb, hrest⟩ := hinj
    rw [Prod.mk.injEq] at hrest
    refine ⟨mp, ?_, hrest.1.symm, hb.symm⟩
    rw [← hrest.2]

/-- **C4.**  On a persisted instance, every update query `save` issues is
keyed on the primary-key value captured in the `original` snapshot — even
if the key attribute was modified in memory — and the current attribute
value is consulted only when the key is absent from the snapshot. -/
theorem update_keyed_on_original (c : ModelClass) (m : ModelData)
    (kn : String) (opt_timestamps : Bool) (now : Int) (gen_id : Value)
    (b : Bool) (m2 : ModelData) (qs : List Query)
    (hpk : c.primary_key = some kn) :
    (∀ kv0, alGet m.original kn = some kv0 → m.exists_ = true →
      save c m opt_timestamps now gen_id = .ok (b, m2, qs) →
      ∀ q, q ∈ qs → ∃ d, q = Query.update kn kv0 d) ∧
    (alGet m.original kn = none →
      _get_key_for_save_query c m = alGet m.attributes kn) := by
  constructor
  · intro kv0 horig hex hsave q hq
    obtain ⟨mp, hup, _, _⟩ :=
      save_update_decomp c m opt_timestamps now gen_id b m2 qs hex hsave
    rcases perform_update_spec c m opt_timestamps now mp qs hup with
      ⟨_, _, hqs⟩ | ⟨_, hmp, ⟨_, hqs⟩ | ⟨_, kn2, kv2, hpk2, hkey2, hqs⟩⟩
    · rw [hqs] at hq
      cases hq
    · rw [hqs] at hq
      cases hq
    · have hkn : kn2 = kn := by
        rw [hpk] at hpk2
        exact (Option.some.inj hpk2).symm
      have horigp : alGet mp.original kn = some kv0 := by
        rw [hmp, stamp_if_enabled_original]
        exact horig
      have hkv2 : kv2 = kv0 := by
        simp only [_get_key_for_save_query, hpk, horigp] at hkey2
        exact (Option.some.inj hkey2).symm
      rw [hqs] at hq
      rcases List.mem_singleton.mp hq with rfl
      exact ⟨_, by rw [hkn, hkv2]⟩
  · intro hnone
    simp only [_get_key_for_save_query, hpk, hnone]

/-- Witness for C4 at a concrete instance: the dirty persisted fixture
saves through one update query keyed on the snapshot id. -/
theorem update_keyed_on_original_witness :
    ∃ d, Query.update "id" (Value.int 1)
        [("name", Value.str "x"), ("updated_at", Value.time 9)]
      = Query.update "id" (Value.int 1) d :=
  (update_keyed_on_original defaultClass dirtyModel "id" true 9 Value.null
      true
      { exists_ := true,
        attributes := [("id", .int 1), ("name", .str "x"),
                       ("updated_at", .time 9)],
        original := [("id", .int 1), ("name", .str "x"),
                     ("updated_at", .time 9)] }
      [Query.update "id" (Value.int 1)
        [("name", Value.str "x"), ("updated_at", Value.time 9)]]
      rfl).1 (Value.int 1) rfl rfl rfl _ (List.mem_singleton.mpr rfl)

/-- **C1 counterexample.**  A persisted, fully synced instance: had `save`
stamped timestamps unconditionally and recomputed the dirty set afterwards,
that recomputed set would be non-empty (the stamp dirties the updated-at
column), so the claim mandates exactly one update query — yet `save`
short-circuits on the dirty set computed *before* stamping, issues no
query, and leaves the attributes unstamped. -/
theorem save_stamps_unconditionally_counterexample :
    cleanModel.exists_ = true ∧
    get_dirty (_update_timestamps defaultClass cleanModel 9)
      = [("updated_at", Value.time 9)] ∧
    save defaultClass cleanModel true 9 Value.null
      = .ok (true, cleanModel, []) :=
  ⟨rfl, rfl, rfl⟩

/-- **C1 (amended).**  On a persisted instance, `save` first consults the
dirty set: when it is already empty it succeeds as a no-op without
stamping and without a query; otherwise it stamps timestamps (when
enabled), recomputes the dirty set, and then issues no query if that
recomputed set is empty, and exactly one update carrying it otherwise. -/
theorem perform_update_flow (c : ModelClass) (m : ModelData)
    (opt_timestamps : Bool) (now : Int) (gen_id : Value) (b : Bool)
    (m2 : ModelData) (qs : List Query)
    (hex : m.exists_ = true)
    (hsave : save c m opt_timestamps now gen_id = .ok (b, m2, qs)) :
    (get_dirty m = [] → qs = [] ∧ m2 = _finish_save m) ∧
    (get_dirty m ≠ [] →
      (get_dirty (update_timestamps_if_enabled c m opt_timestamps now) = [] →
        qs = [] ∧
        m2 = _finish_save (update_timestamps_if_enabled c m opt_timestamps now)) ∧
      (get_dirty (update_timestamps_if_enabled c m opt_timestamps now) ≠ [] →
        ∃ kn kv, c.primary_key = some kn ∧
          _get_key_for_save_query c
            (update_timestamps_if_enabled c m opt_timestamps now) = some kv ∧
          qs = [Query.update kn kv
            (get_dirty (update_timestamps_if_enabled c m opt_timestamps now))] ∧
          m2 = _finish_save (update_timestamps_if_enabled c m opt_timestamps now))) := by
  obtain ⟨mp, hup, hm2, _⟩ :=
    save_update_decomp c m opt_timestamps now gen_id b m2 qs hex hsave
  rcases perform_update_spec c m opt_timestamps now mp qs hup with
    ⟨hde, hmp, hqs⟩ | ⟨hdne, hmp, ⟨hde2, hqs⟩ | ⟨hdne2, kn, kv, hpk, hkey, hqs⟩⟩
  · constructor
    · intro _
      exact ⟨hqs, by rw [hm2, hmp]⟩
    · intro hcontra
      exact absurd hde hcontra
  · constructor
    · intro hcontra
      exact absurd hcontra hdne
    · intro _
      constructor
      · intro _
        exact ⟨hqs, by rw [hm2, hmp]⟩
      · intro hcontra
        rw [← hmp] at hcontra
        exact absurd hde2 hcontra
  · constructor
    · intro hcontra
      exact absurd hcontra hdne
    · intro _
      constructor
      · intro hcontra
        rw [← hmp] at hcontra
        exact absurd hcontra hdne2
      · intro _
        exact ⟨kn, kv, hpk, by rw [← hmp]; exact hkey,
          by rw [hqs, hmp], by rw [hm2, hmp]⟩

/-- Witness for the amended C1 at a concrete instance: the dirty persisted
fixture goes through stamping and one update query. -/
theorem perform_update_flow_witness :
    ∃ kn kv, defaultClass.primary_key = some kn ∧
      _get_key_for_save_query defaultClass
        (update_timestamps_if_enabled defaultClass dirtyModel true 9)
        = some kv ∧
      [Query.update "id" (Value.int 1)
        [("name", Value.str "x"), ("updated_at", Value.time 9)]]
        = [Query.update kn kv
            (get_dirty (update_timestamps_if_enabled defaultClass dirtyModel true 9))] ∧
      ({ exists_ := true,
         attributes := [("id", .int 1), ("name", .str "x"),
                        ("updated_at", .time 9)],
         original := [("id", .int 1), ("name", .str "x"),
                      ("updated_at", .time 9)] } : ModelData)
        = _finish_save (update_timestamps_if_enabled defaultClass dirtyModel true 9) :=
  ((perform_update_flow defaultClass dirtyModel true 9 Value.null true
      { exists_ := true,
        attributes := [("id", .int 1), ("name", .str "x"),
                       ("updated_at", .time 9)],
        original := [("id", .int 1), ("name", .str "x"),
                     ("updated_at", .time 9)] }
      [Query.update "id" (Value.int 1)
        [("name", Value.str "x"), ("updated_at", Value.time 9)]]
      rfl rfl).2 (by intro h; cases h)).2 (by intro h; cases h)

/-- **C3.**  Saving a persisted instance twice in immediate succession,
with no mutation in between, issues zero write queries on the second call:
the first save's final sync empties the recomputed dirty set, so the second
save succeeds without any query (and without changing the instance). -/
theorem save_idempotent (c : ModelClass) (m : ModelData)
    (opt_timestamps : Bool) (now : Int) (gen_id : Value)
    (opt_timestamps2 : Bool) (now2 : Int) (gen_id2 : Value)
    (b : Bool) (m1 : ModelData) (qs : List Query)
    (hnd : (m.attributes.map Prod.fst).Nodup)
    (hex : m.exists_ = true)
    (hsave : save c m opt_timestamps now gen_id = .ok (b, m1, qs)) :
    save c m1 opt_timestamps2 now2 gen_id2 = .ok (true, m1, []) := by
  obtain ⟨mp, hup, hm1, _⟩ :=
    save_update_decomp c m opt_timestamps now gen_id b m1 qs hex hsave
  have hmp : mp = m ∨ mp = update_timestamps_if_enabled c m opt_timestamps now := by
    rcases perform_update_spec c m opt_timestamps now mp qs hup with
      ⟨_, h2, _⟩ | ⟨_, h2, _⟩
    · exact Or.inl h2
    · exact Or.inr h2
  have hexp : mp.exists_ = true := by
    rcases hmp with h | h
    · rw [h]
      exact hex
    · rw [h, stamp_if_enabled_exists]
      exact hex
  have hndp : (mp.attributes.map Prod.fst).Nodup := by
    rcases hmp with h | h
    · rw [h]
      exact hnd
    · rw [h]
      exact stamp_if_enabled_nodup c m opt_timestamps now hnd
  have hdirty : get_dirty (_finish_save mp) = [] := get_dirty_sync mp hndp
  have hstep : _perform_update c (_finish_save mp) opt_timestamps2 now2
      = .ok (_finish_save mp, []) := by
    rw [_perform_update, hdirty]
    rfl
  rw [hm1, save, if_pos (show (_finish_save mp).exists_ = true from hexp),
    hstep]
  rfl

/-- Witness for C3 at a concrete instance: resaving the dirty persisted
fixture right after its first save issues no query. -/
theorem save_idempotent_witness :
    save defaultClass
      { exists_ := true,
        attributes := [("id", .int 1), ("name", .str "x"),
                       ("updated_at", .time 9)],
        original := [("id", .int 1), ("name", .str "x"),
                     ("updated_at", .time 9)] }
      true 11 Value.null
      = .ok (true,
          { exists_ := true,
            attributes := [("id", .int 1), ("name", .str "x"),
                           ("updated_at", .time 9)],
            original := [("id", .int 1), ("name", .str "x"),
                         ("updated_at", .time 9)] }, []) :=
  save_idempotent defaultClass dirtyModel true 9 Value.null true 11
    Value.null true
    { exists_ := true,
      attributes := [("id", .int 1), ("name", .str "x"),
                     ("updated_at", .time 9)],
      original := [("id", .int 1), ("name", .str "x"),
                   ("updated_at", .time 9)] }
    [Query.update "id" (Value.int 1)
      [("name", Value.str "x"), ("updated_at", Value.time 9)]]
    (by decide) rfl rfl

/-- **C7.**  The save-path stamping step: disabled timestamps stamp
nothing; a single fresh timestamp is used; the updated-at column is
written only when not already dirty and the created-at column only when
the record is new and that column is not already dirty — so caller-supplied
dirty values for either column are never overwritten. -/
theorem stamp_for_save_respects_dirty (c : ModelClass) (m : ModelData)
    (opt_timestamps : Bool) (now : Int)
    (hnd : (m.attributes.map Prod.fst).Nodup) :
    (c.timestamps = false →
      update_timestamps_if_enabled c m opt_timestamps now = m) ∧
    (is_dirty m [UPDATED_AT] = true →
      alGet (update_timestamps_if_enabled c m opt_timestamps now).attributes
          UPDATED_AT
        = alGet m.attributes UPDATED_AT) ∧
    (is_dirty m [CREATED_AT] = true →
      alGet (update_timestamps_if_enabled c m opt_timestamps now).attributes
          CREATED_AT
        = alGet m.attributes CREATED_AT) ∧
    (m.exists_ = true →
      alGet (update_timestamps_if_enabled c m opt_timestamps now).attributes
          CREATED_AT
        = alGet m.attributes CREATED_AT) ∧
    (c.timestamps = true → opt_timestamps = true →
      is_dirty m [UPDATED_AT] = false →
      alGet (update_timestamps_if_enabled c m opt_timestamps now).attributes
          UPDATED_AT
        = alGet (set_attribute c m UPDATED_AT (Value.time now)).attributes
            UPDATED_AT) ∧
    (c.timestamps = true → opt_timestamps = true → m.exists_ = false →
      is_dirty m [CREATED_AT] = false →
      alGet (update_timestamps_if_enabled c m opt_timestamps now).attributes
          CREATED_AT
        = alGet (set_attribute c m CREATED_AT (Value.time now)).attributes
            CREATED_AT) := by
  have hne1 : CREATED_AT ≠ UPDATED_AT := by decide
  have hne2 : UPDATED_AT ≠ CREATED_AT := by decide
  by_cases hen : (c.timestamps && opt_timestamps) = true
  · have hsel : update_timestamps_if_enabled c m opt_timestamps now
        = _update_timestamps c m now := by
      rw [update_timestamps_if_enabled, if_pos hen]
    have hshape : ∀ m1,
        m1 = (if !is_dirty m [UPDATED_AT]
              then set_attribute c m UPDATED_AT (Value.time now) else m) →
        _update_timestamps c m now
          = if !m1.exists_ && !is_dirty m1 [CREATED_AT]
            then set_attribute c m1 CREATED_AT (Value.time now) else m1 := by
      intro m1 h1
      rw [_update_timestamps, ← h1]
    rcases Bool.dichotomy (is_dirty m [UPDATED_AT]) with hUA | hUA
    · -- updated-at not dirty: it is stamped first
      have h1 : (if !is_dirty m [UPDATED_AT]
          then set_attribute c m UPDATED_AT (Value.time now) else m)
          = set_attribute c m UPDATED_AT (Value.time now) := by
        rw [hUA]
        rfl
      have hform := hshape _ (by rw [h1])
      have hCAtr : is_dirty (set_attribute c m UPDATED_AT (Value.time now))
          [CREATED_AT] = is_dirty m [CREATED_AT] :=
        is_dirty_set_attribute_other c m UPDATED_AT (Value.time now)
          CREATED_AT hne1 hnd
      have hexm1 : (set_attribute c m UPDATED_AT (Value.time now)).exists_
          = m.exists_ := rfl
      refine ⟨?_, ?_, ?_, ?_, ?_, ?_⟩
      · intro hts
        rw [hts] at hen
        cases hen
      · intro hUAt
        rw [hUA] at hUAt
        cases hUAt
      · intro hCA
        rw [hsel, hform, hexm1, hCAtr, hCA]
        simp only [Bool.not_true, Bool.and_false,
          if_neg (by decide : ¬false = true)]
        show alGet (alSet m.attributes UPDATED_AT _) CREATED_AT = _
        exact alGet_alSet_ne _ _ _ _ hne1
      · intro hexm
        rw [hsel, hform, hexm1, hexm]
        show alGet (alSet m.attributes UPDATED_AT _) CREATED_AT = _
        exact alGet_alSet_ne _ _ _ _ hne1
      · intro _ _ _
        rw [hsel, hform]
        by_cases hc : (!(set_attribute c m UPDATED_AT (Value.time now)).exists_
            && !is_dirty (set_attribute c m UPDATED_AT (Value.time now))
                [CREATED_AT]) = true
        · rw [if_pos hc]
          show alGet (alSet (set_attribute c m UPDATED_AT
            (Value.time now)).attributes CREATED_AT _) UPDATED_AT = _
          exact alGet_alSet_ne _ _ _ _ hne2
        · rw [if_neg hc]
      · intro _ _ hexf hCAf
        rw [hsel, hform, hexm1, hCAtr, hexf, hCAf]
        show alGet (alSet (set_attribute c m UPDATED_AT
          (Value.time now)).attributes CREATED_AT _) CREATED_AT = _
        rw [alGet_alSet_self]
        show _ = alGet (alSet m.attributes CREATED_AT _) CREATED_AT
        rw [alGet_alSet_self]
    · -- updated-at already dirty: the first write is skipped
      have h1 : (if !is_dirty m [UPDATED_AT]
          then set_attribute c m UPDATED_AT (Value.time now) else m) = m := by
        rw [hUA]
        rfl
      have hform := hshape m (by rw [h1])
      refine ⟨?_, ?_, ?_, ?_, ?_, ?_⟩
      · intro hts
        rw [hts] at hen
        cases hen
      · intro _
        rw [hsel, hform]
        by_cases hc : (!m.exists_ && !is_dirty m [CREATED_AT]) = true
        · rw [if_pos hc]
          show alGet (alSet m.attributes CREATED_AT _) UPDATED_AT = _
          exact alGet_alSet_ne _ _ _ _ hne2
        · rw [if_neg hc]
      · intro hCA
        rw [hsel, hform, hCA]
        simp
      · intro hexm
        rw [hsel, hform, hexm]
        rfl
      · intro _ _ hUAf
        rw [hUA] at hUAf
        cases hUAf
      · intro _ _ hexf hCAf
        rw [hsel, hform, hexf, hCAf]
        show alGet (alSet m.attributes CREATED_AT _) CREATED_AT = _
        rw [alGet_alSet_self]
        show _ = alGet (alSet m.attributes CREATED_AT _) CREATED_AT
        rw [alGet_alSet_self]
  · have hsel : update_timestamps_if_enabled c m opt_timestamps now = m := by
      rw [update_timestamps_if_enabled, if_neg hen]
    exact ⟨fun _ => hsel, fun _ => by rw [hsel], fun _ => by rw [hsel],
      fun _ => by rw [hsel],
      fun hts hopt _ => by
        rw [hts, hopt] at hen
        exact absurd rfl hen,
      fun hts hopt _ _ => by
        rw [hts, hopt] at hen
        exact absurd rfl hen⟩

theorem apply_dates_preserves (key : String) : ∀ (ds : List String)
    (attrs attrs2 : List (String × Value)), key ∉ ds →
    apply_dates ds attrs = some attrs2 →
    alGet attrs2 key = alGet attrs key := by
  intro ds
  induction ds with
  | nil =>
    intro attrs attrs2 _ h
    cases h
    rfl
  | cons dk rest ih =>
    intro attrs attrs2 hmem h
    have hne : key ≠ dk := fun e => hmem (e ▸ List.mem_cons_self dk rest)
    have hnr : key ∉ rest := fun e => hmem (List.mem_cons_of_mem dk e)
    rw [apply_dates] at h
    cases hg : alGet attrs dk with
    | none =>
      simp only [hg] at h
      exact ih attrs attrs2 hnr h
    | some v =>
      simp only [hg] at h
      cases hd : as_datetime v with
      | none =>
        simp only [hd] at h
        cases h
      | some t =>
        simp only [hd] at h
        rw [ih _ _ hnr h]
        exact alGet_alSet_ne _ _ _ _ hne

theorem apply_casts_not_mem (c : ModelClass) (key : String) :
    ∀ (casL : List (String × String)) (attrs attrs2 : List (String × Value)),
    key ∉ casL.map Prod.fst →
    apply_casts c casL attrs = some attrs2 →
    alGet attrs2 key = alGet attrs key := by
  intro casL
  induction casL with
  | nil =>
    intro attrs attrs2 _ h
    cases h
    rfl
  | cons hd rest ih =>
    intro attrs attrs2 hmem h
    obtain ⟨ck, ct⟩ := hd
    simp only [List.map_cons, List.mem_cons] at hmem
    push_neg at hmem
    rw [apply_casts] at h
    cases hg : alGet attrs ck with
    | none =>
      simp only [hg] at h
      exact ih attrs attrs2 hmem.2 h
    | some v =>
      simp only [hg] at h
      cases hc : _cast_attribute c ck v with
      | none =>
        simp only [hc] at h
        cases h
      | some w =>
        simp only [hc] at h
        rw [ih _ _ hmem.2 h]
        exact alGet_alSet_ne _ _ _ _ hmem.1

theorem apply_casts_hit (c : ModelClass) (key : String) (w : Value) :
    ∀ (casL : List (String × String)) (attrs attrs2 : List (String × Value))
    (sv : Value) (t : String),
    (casL.map Prod.fst).Nodup → (key, t) ∈ casL →
    alGet attrs key = some sv →
    _cast_attribute c key sv = some w →
    apply_casts c casL attrs = some attrs2 →
    alGet attrs2 key = some w := by
  intro casL
  induction casL with
  | nil =>
    intro attrs attrs2 sv t _ hmem
    cases hmem
  | cons hd rest ih =>
    intro attrs attrs2 sv t hnd hmem hget hcast h
    obtain ⟨ck, ct⟩ := hd
    simp only [List.map_cons, List.nodup_cons] at hnd
    by_cases hk : ck = key
    · subst hk
      simp only [apply_casts, hget, hcast] at h
      have hout := apply_casts_not_mem c ck rest _ _ hnd.1 h
      rw [hout]
      exact alGet_alSet_self _ _ _
    · have hmem2 : (key, t) ∈ rest := by
        rcases List.mem_cons.mp hmem with he | he
        · rw [Prod.mk.injEq] at he
          exact absurd he.1.symm hk
        · exact he
      rw [apply_casts] at h
      cases hg : alGet attrs ck with
      | none =>
        simp only [hg] at h
        exact ih attrs attrs2 sv t hnd.2 hmem2 hget hcast h
      | some v2 =>
        simp only [hg] at h
        cases hc : _cast_attribute c ck v2 with
        | none =>
          simp only [hc] at h
          cases h
        | some w2 =>
          simp only [hc] at h
          have hget2 : alGet (alSet attrs ck w2) key = some sv := by
            rw [alGet_alSet_ne _ _ _ _ (fun e => hk e.symm)]
            exact hget
          exact ih _ attrs2 sv t hnd.2 hmem2 hget2 hcast h

theorem lookup_some_mem (key : String) :
    ∀ (l : List (String × String)) (t : String),
    l.lookup key = some t → (key, t) ∈ l := by
  intro l
  induction l with
  | nil =>
    intro t h
    cases h
  | cons hd rest ih =>
    intro t h
    obtain ⟨ck, ct⟩ := hd
    rw [List.lookup] at h
    by_cases hk : key = ck
    · subst hk
      simp only [beq_self_eq_true] at h
      have := Option.some.inj h
      rw [this]
      exact List.mem_cons_self _ _
    · rw [show (key == ck) = false from beq_eq_false_iff_ne.mpr hk] at h
      exact List.mem_cons_of_mem _ (ih t h)

/-- **C8 counterexample.**  The `object` cast kind is serialized on write
(`_is_json_castable` includes it) but never decoded on read
(`_cast_attribute` has no branch for it), so a structured-cast round trip
through `set` and `to_dict` returns the raw transport string instead of the
stored list. -/
theorem object_cast_not_decoded_counterexample :
    to_dict objectCastClass
        (set_attribute objectCastClass emptyModel "data" (Value.list []))
      = some [("data", Value.str "L]")] ∧
    Value.str "L]" ≠ Value.list [] :=
  ⟨rfl, fun h => Value.noConfusion h⟩

/-- **C8 (amended).**  For a key with a `dict` / `list` / `json` cast (the
`object` kind lacks a decode branch) that is not a date column and survives
hidden/visible filtering, and any JSON-representable value `v`: whenever
`to_dict` after `set_attribute key v` produces an output, that output maps
the key back to `v`. -/
theorem structured_cast_round_trip (c : ModelClass) (m : ModelData)
    (key : String) (v : Value) (d : List (String × Value))
    (hnd : (c.casts.map Prod.fst).Nodup)
    (hjson : jsonRepresentable v = true)
    (hcast : _has_cast c key = true)
    (htype : _get_cast_type c key = "dict" ∨ _get_cast_type c key = "list"
      ∨ _get_cast_type c key = "json")
    (hdate : key ∉ get_dates c)
    (hfilter : if c.visible.length > 0 then key ∈ c.visible
      else key ∉ c.hidden ∧ starts_with_underscore key = false)
    (hout : to_dict c (set_attribute c m key v) = some d) :
    alGet d key = some v := by
  -- the stored transport string
  have hjc : _is_json_castable c key = true := by
    rw [_is_json_castable, if_pos hcast]
    rcases htype with h | h | h <;> simp [h]
  have hsetattr : (set_attribute c m key v).attributes
      = alSet m.attributes key (Value.str (json_dumps v)) := by
    rw [set_attribute]
    simp [hdate, hjc]
  -- to_dict is attributes_to_dict (relations are empty)
  have hto : attributes_to_dict c (set_attribute c m key v) = some d := by
    rw [to_dict] at hout
    cases hat : attributes_to_dict c (set_attribute c m key v) with
    | none =>
      rw [hat] at hout
      cases hout
    | some d0 =>
      rw [hat] at hout
      simp only [Option.map_some', Option.some.injEq] at hout
      rw [← hout]
      rfl
  rw [attributes_to_dict] at hto
  obtain ⟨mid, hdates, hcasts⟩ := Option.bind_eq_some.mp hto
  -- the key survives hidden/visible filtering with its stored value
  have hitems : alGet (_get_dictable_items c
      (set_attribute c m key v).attributes) key
      = some (Value.str (json_dumps v)) := by
    rw [_get_dictable_items]
    by_cases hv : c.visible.length > 0
    · rw [if_pos hv]
      rw [alGet_filter_keyprop (fun k => decide (k ∈ c.visible)) _ _
        (by
          rw [if_pos hv] at hfilter
          simpa using hfilter)]
      rw [hsetattr]
      exact alGet_alSet_self _ _ _
    · rw [if_neg hv]
      rw [if_neg hv] at hfilter
      rw [alGet_filter_keyprop
        (fun k => decide (k ∉ c.hidden) && !starts_with_underscore k) _ _
        (by
          obtain ⟨h1, h2⟩ := hfilter
          simp [h1, h2])]
      rw [hsetattr]
      exact alGet_alSet_self _ _ _
  -- date formatting leaves the key alone
  have hmid : alGet mid key = some (Value.str (json_dumps v)) := by
    rw [apply_dates_preserves key (get_dates c) _ mid hdate hdates]
    exact hitems
  -- the cast pass decodes it back
  obtain ⟨t, hlook⟩ := Option.isSome_iff_exists.mp hcast
  have hmem : (key, t) ∈ c.casts := lookup_some_mem key c.casts t hlook
  have hdecode : _cast_attribute c key (Value.str (json_dumps v))
      = some v := by
    rw [_cast_attribute]
    rcases htype with h | h | h <;>
      simp [h, json_round_trip v]
  exact apply_casts_hit c key v c.casts mid d
    (Value.str (json_dumps v)) t hnd hmem hmid hdecode hcasts

/-- Witness for the amended C8 at a concrete instance: a `json`-cast key
round-trips a list value through `set_attribute` and `to_dict`. -/
theorem structured_cast_round_trip_witness :
    alGet [("data", Value.list [Value.int 1, Value.null])] "data"
      = some (Value.list [Value.int 1, Value.null]) :=
  structured_cast_round_trip jsonCastClass emptyModel
    "data" (Value.list [Value.int 1, Value.null])
    [("data", Value.list [Value.int 1, Value.null])]
    (by decide) (by decide) (by decide)
    (Or.inr (Or.inr (by decide))) (by decide) (by decide) rfl

/-- Witness for C7 at a concrete instance: a caller-supplied dirty
updated-at value survives the stamping step untouched. -/
theorem stamp_for_save_respects_dirty_witness :
    alGet (update_timestamps_if_enabled defaultClass dirtyUpdatedAtModel
        true 9).attributes UPDATED_AT
      = alGet dirtyUpdatedAtModel.attributes UPDATED_AT :=
  (stamp_for_save_respects_dirty defaultClass dirtyUpdatedAtModel
      true 9 (by decide)).2.1 rfl
